import Mathlib

/-!
# Verification of the curriculum spreadsheet parser

Shallow embedding of `src/external/learning_analytics/data_formalization_submodule/methods.py`
(the curriculum workbook parser) and proofs about it.

Modelling conventions:
* Spreadsheet cells are either missing (`Cell.na`, the `NaN` produced by the
  loader for blank cells) or text (`Cell.str`); `str(cell)` on a missing cell
  renders `"nan"` as CPython does.  Numeric/date typed cells are out of scope:
  every claim below concerns text or blank cells.
* Python strings are Lean `String`s; case folding and the character classes
  used by the source (`str.lower`, `str.upper`, `str.strip`, `str.isdigit`,
  `str.isalpha`, `\s`, `\d`) are modelled over ASCII plus the Cyrillic block
  U+0400–U+04FF, which covers every literal appearing in the source.
* Python exceptions are the `PyErr` inductive threaded through `Except`;
  an `except (ValueError, TypeError)` clause is a `match` on those
  constructors.
-/

namespace ErgoParser

/-- A spreadsheet cell as seen by the parser: missing (pandas `NaN`) or text. -/
inductive Cell where
  | na : Cell
  | str : String → Cell
deriving DecidableEq, Repr

/-- `pd.isna` on a cell. -/
def Cell.isna : Cell → Bool
  | .na => true
  | .str _ => false

/-- Python `str(cell)`: a missing cell (float nan) renders as `"nan"`. -/
def Cell.pyStr : Cell → String
  | .na => "nan"
  | .str s => s

/-- A sheet is the list of data rows the loader hands to `df.iterrows()`. -/
abbrev Sheet := List (List Cell)

/-- A workbook: named sheets in file order (names are unique in real files,
but nothing below assumes it). -/
abbrev Workbook := List (String × Sheet)

/-! ## Python string primitives -/

/-- Python `\s` / `str.strip` whitespace (the ASCII whitespace characters). -/
def isPySpace (c : Char) : Bool :=
  c = ' ' || c = '\t' || c = '\n' || c = '\x0d' || c = '\x0b' || c = '\x0c'

/-- Lowercase one character: ASCII letters plus Cyrillic А–Я and Ё. -/
def pyLowerChar (c : Char) : Char :=
  if 'A' ≤ c ∧ c ≤ 'Z' then Char.ofNat (c.toNat + 32)
  else if 0x410 ≤ c.toNat ∧ c.toNat ≤ 0x42F then Char.ofNat (c.toNat + 0x20)
  else if c.toNat = 0x401 then Char.ofNat 0x451
  else c

/-- Uppercase one character: ASCII letters plus Cyrillic а–я and ё. -/
def pyUpperChar (c : Char) : Char :=
  if 'a' ≤ c ∧ c ≤ 'z' then Char.ofNat (c.toNat - 32)
  else if 0x430 ≤ c.toNat ∧ c.toNat ≤ 0x44F then Char.ofNat (c.toNat - 0x20)
  else if c.toNat = 0x451 then Char.ofNat 0x401
  else c

/-- Python `str.lower` (over the modelled alphabet). -/
def pyLower (s : String) : String := String.mk (s.data.map pyLowerChar)

/-- Python `str.upper` (over the modelled alphabet). -/
def pyUpper (s : String) : String := String.mk (s.data.map pyUpperChar)

/-- Python `str.strip()`. -/
def pyStrip (s : String) : String :=
  String.mk (((s.data.dropWhile isPySpace).reverse.dropWhile isPySpace).reverse)

/-- `needle` occurs as a contiguous sublist of `hay` (Python `in` on strings). -/
def listContainsSub (needle hay : List Char) : Bool :=
  match hay with
  | [] => needle.isEmpty
  | _ :: t => needle.isPrefixOf hay || listContainsSub needle t

/-- Python `needle in hay` for strings. -/
def strContains (hay needle : String) : Bool :=
  listContainsSub needle.data hay.data

/-- Split a character list at every separator character satisfying `p`,
keeping empty segments — the semantics of both `re.split` with a character
class and `str.split(";")`. -/
def splitOnPred (p : Char → Bool) : List Char → List (List Char)
  | [] => [[]]
  | c :: rest =>
    let r := splitOnPred p rest
    if p c then [] :: r
    else match r with
      | [] => [[c]]
      | seg :: segs => (c :: seg) :: segs

/-- String version of `splitOnPred`. -/
def pySplit (p : Char → Bool) (s : String) : List String :=
  (splitOnPred p s.data).map String.mk

/-! ## The competency sheet (`parse_competencies_sheet`, `normalize_code`) -/

/-- One emitted competency record. -/
structure CompetencyLink where
  code : String
  competency : List String
deriving DecidableEq, Repr

/-- `normalize_code`: segment before the first `(` or `)`, trimmed, uppercased. -/
def normalize_code (raw_code : String) : String :=
  pyUpper (pyStrip (String.mk (raw_code.data.takeWhile (fun c => ¬(c = '(' ∨ c = ')')))))

/-- The body of one iteration of `parse_competencies_sheet`'s row loop:
`none` means the row is skipped (`continue`). -/
def competencyRow (row : List Cell) : Option CompetencyLink :=
  match row.get? 2 with
  | none => none
  | some code_cell =>
    match row.get? 5 with
    | none => none
    | some comp_cell =>
      if code_cell.isna || comp_cell.isna then none
      else
        let code := normalize_code (pyStrip code_cell.pyStr)
        let comp_str := pyStrip comp_cell.pyStr
        if code = "" || comp_str = "" then none
        else some { code := code
                    competency := (pySplit (· = ';') comp_str).filterMap
                      (fun c => if pyStrip c = "" then none else some (pyStrip c)) }

/-- `parse_competencies_sheet(df, valid_codes)`.  The `valid_codes` argument is
accepted but — exactly as in the source — never consulted. -/
def parse_competencies_sheet (df : Sheet) (valid_codes : List String) : List CompetencyLink :=
  let _ := valid_codes
  df.filterMap competencyRow

/-! ## The plan sheet -/

/-- `is_valid_discipline_row`: first cell present, not NaN, trims to `"+"`. -/
def is_valid_discipline_row (row : List Cell) : Bool :=
  match row.get? 0 with
  | none => false
  | some c => if c.isna then false else pyStrip c.pyStr = "+"

/-- The exclusion vocabulary of `should_skip_discipline`. -/
def skip_keywords : List String :=
  ["элективные", "спортивная подготовка", "физическая культура",
   "спорт", "дисциплина по выбору", "практика", "защита",
   "подготовка к защите", "выпускная квалификационная работа"]

/-- `should_skip_discipline(name)`. -/
def should_skip_discipline (name : String) : Bool :=
  skip_keywords.any (fun kw => strContains (pyLower name) kw)

/-! ## Semester extraction -/

/-- Python per-character `str.isalpha` over the modelled alphabet
(ASCII letters plus the Cyrillic block). -/
def pyIsAlphaChar (c : Char) : Bool :=
  c.isAlpha || (0x400 ≤ c.toNat && c.toNat ≤ 0x4FF)

/-- Python `str.isdigit`: non-empty and every character a digit. -/
def pyStrIsDigit (s : String) : Bool :=
  !s.data.isEmpty && s.data.all Char.isDigit

/-- Python `str.isalpha`: non-empty and every character alphabetic. -/
def pyStrIsAlpha (s : String) : Bool :=
  !s.data.isEmpty && s.data.all pyIsAlphaChar

/-- `set.add`: a Python set modelled as a duplicate-free list in insertion
order (the final output is sorted, so ordering is immaterial there). -/
def setAdd (s : List String) (x : String) : List String :=
  if s.contains x then s else s ++ [x]

/-- `set.update` with another collection. -/
def setUnion (s t : List String) : List String := t.foldl setAdd s

/-- `parse_semester_value(value)`: split the cell on `[,;|]`, keep single
digit/letter tokens, explode multi-character numeric tokens into digits. -/
def parse_semester_value (value : Cell) : List String :=
  let value_str := pyStrip value.pyStr
  let parts := pySplit (fun c => c = ',' || c = ';' || c = '|') value_str
  parts.foldl (fun sems part =>
    let p := pyStrip part
    if p = "" then sems
    else if p.length = 1 && (pyStrIsDigit p || pyStrIsAlpha p) then setAdd sems p
    else if pyStrIsDigit p && p.length > 1 then
      p.data.foldl (fun s c => setAdd s (String.mk [c])) sems
    else sems) []

/-- Code-point comparison of character lists (Python string `<`). -/
def charListLt : List Char → List Char → Bool
  | [], [] => false
  | [], _ :: _ => true
  | _ :: _, [] => false
  | a :: as, b :: bs => if a < b then true else if b < a then false else charListLt as bs

/-- Python string `<=`. -/
def pyStrLe (a b : String) : Bool := charListLt a.data b.data || a = b

/-- The sort key of `format_semesters`: `(not x.isdigit(), x)` compared
lexicographically, `False < True`. -/
def semKeyLe (a b : String) : Bool :=
  let da := pyStrIsDigit a
  let db := pyStrIsDigit b
  (da && !db) || (da = db && pyStrLe a b)

/-- Insertion step of insertion sort by a boolean `le`. -/
def insertLe (le : String → String → Bool) (x : String) : List String → List String
  | [] => [x]
  | y :: t => if le x y then x :: y :: t else y :: insertLe le x t

/-- Insertion sort by a boolean `le` (Python `sorted` on distinct keys). -/
def sortLe (le : String → String → Bool) : List String → List String
  | [] => []
  | x :: t => insertLe le x (sortLe le t)

/-- `format_semesters(semesters)`. -/
def format_semesters (semesters : List String) : String :=
  String.intercalate ", " (sortLe semKeyLe semesters)

/-- `extract_semesters_from_row(row)`: union the parsed tokens of the
non-blank cells in columns 3, 4, 5 and format them. -/
def extract_semesters_from_row (row : List Cell) : String :=
  let semesters := [3, 4, 5].foldl (fun sems col_idx =>
    match row.get? col_idx with
    | some c => if !c.isna then setUnion sems (parse_semester_value c) else sems
    | none => sems) []
  format_semesters semesters

/-! ## Python numerics: `float(...)` and `int(...)` for `parse_hours` -/

/-- The Python exceptions the parser can raise or catch. -/
inductive PyErr where
  | valueError
  | typeError
  | overflowError
  | indexError
  | generic (msg : String)
deriving DecidableEq, Repr

/-- A CPython float as far as `int(float(cell))` is concerned.  The finite
case carries the exact decimal value: binary rounding is abstracted away (it
never changes which exception, if any, the two casts raise, apart from the
overflow threshold 2^1024 which the model uses directly). -/
inductive PyFloat where
  | finite (q : ℚ)
  | inf (neg : Bool)
  | nan
deriving DecidableEq, Repr

/-- Digits of a numeral to a natural number. -/
def natOfDigits (ds : List Char) : Nat :=
  ds.foldl (fun n c => 10 * n + (c.toNat - '0'.toNat)) 0

/-- Parse the digit/fraction/exponent body of a float literal (everything
after the optional sign), returning its exact value.  Grammar:
`d+ [. d*] | . d+`, optionally followed by `(e|E) [+|-] d+`.
(Underscore separators, accepted by CPython, are not modelled.) -/
def parseFloatBody (cs : List Char) : Option ℚ :=
  let intPart := cs.takeWhile Char.isDigit
  let rest₁ := cs.dropWhile Char.isDigit
  let (fracPart, rest₂) :=
    match rest₁ with
    | '.' :: t => (t.takeWhile Char.isDigit, t.dropWhile Char.isDigit)
    | _ => ([], rest₁)
  let hadDot := match rest₁ with | '.' :: _ => true | _ => false
  if intPart.isEmpty && fracPart.isEmpty then none
  else
    let mantissa : ℚ :=
      (natOfDigits (intPart ++ fracPart) : ℚ) / ((10 : ℚ) ^ fracPart.length)
    let _ := hadDot
    match rest₂ with
    | [] => some mantissa
    | e :: t =>
      if e = 'e' || e = 'E' then
        let (negExp, t') := match t with
          | '-' :: u => (true, u)
          | '+' :: u => (false, u)
          | u => (false, u)
        let expDigits := t'.takeWhile Char.isDigit
        if expDigits.isEmpty || !(t'.dropWhile Char.isDigit).isEmpty then none
        else
          let ex := natOfDigits expDigits
          some (if negExp then mantissa / (10 : ℚ) ^ ex else mantissa * (10 : ℚ) ^ ex)
      else none

/-- CPython `float(s)` on a string: strip whitespace, optional sign, then
`inf`/`infinity`/`nan` (case-insensitive) or a decimal literal; magnitudes
at or beyond 2^1024 overflow to an infinity.  Failure is a `ValueError`. -/
def pyFloatOfString (s : String) : Except PyErr PyFloat :=
  let t := (pyStrip s).data
  let (neg, body) := match t with
    | '-' :: u => (true, u)
    | '+' :: u => (false, u)
    | u => (false, u)
  let low := body.map pyLowerChar
  if low = "inf".data || low = "infinity".data then .ok (.inf neg)
  else if low = "nan".data then .ok .nan
  else match parseFloatBody body with
    | none => .error .valueError
    | some q => if (2 : ℚ) ^ 1024 ≤ q then .ok (.inf neg) else
        .ok (.finite (if neg then -q else q))

/-- Truncation of a rational toward zero (CPython `int(float)` on finites). -/
def ratTrunc (q : ℚ) : Int := Int.tdiv q.num (q.den : Int)

/-- CPython `int(f)` on a float: `OverflowError` on infinities, `ValueError`
on NaN, truncation toward zero otherwise. -/
def pyIntOfFloat : PyFloat → Except PyErr Int
  | .finite q => .ok (ratTrunc q)
  | .inf _ => .error .overflowError
  | .nan => .error .valueError

/-- `parse_hours(row, col_idx)`: `None` for an absent or NaN cell, else
`int(float(cell))` with `ValueError`/`TypeError` caught — and only those. -/
def parse_hours (row : List Cell) (col_idx : Nat) : Except PyErr (Option Int) :=
  match row.get? col_idx with
  | none => .ok none
  | some c =>
    if c.isna then .ok none
    else
      match pyFloatOfString c.pyStr >>= pyIntOfFloat with
      | .ok n => .ok (some n)
      | .error .valueError => .ok none
      | .error .typeError => .ok none
      | .error e => .error e

/-! ## Detailed and base disciplines, plan sheet -/

/-- One detailed discipline record. -/
structure DetailedDiscipline where
  curriculum : Option String
  base_discipline : Option String
  code : String
  name : String
  semesters : String
  contact_work_hours : Option Int
  independent_work_hours : Option Int
  control_work_hours : Option Int
  technologies : Option String
  competencies : Option String
deriving DecidableEq, Repr

/-- One base discipline record. -/
structure BaseDiscipline where
  code : String
  name : String
  description : Option String
deriving DecidableEq, Repr

/-- `str(row.iloc[i])` with pandas positional indexing: raises `IndexError`
past the end of the row. -/
def ilocStr (row : List Cell) (i : Nat) : Except PyErr String :=
  match row.get? i with
  | some c => .ok c.pyStr
  | none => .error .indexError

/-- `parse_detailed_disciplines(df)`. -/
def parse_detailed_disciplines : Sheet → Except PyErr (List DetailedDiscipline)
  | [] => .ok []
  | row :: rest =>
    if !is_valid_discipline_row row then parse_detailed_disciplines rest
    else do
      let code ← ilocStr row 1
      let name ← ilocStr row 2
      let code := pyStrip code
      let name := pyStrip name
      if should_skip_discipline name then parse_detailed_disciplines rest
      else do
        let cw ← parse_hours row 13
        let iw ← parse_hours row 14
        let ctl ← parse_hours row 15
        let tail ← parse_detailed_disciplines rest
        .ok ({ curriculum := none, base_discipline := none, code := code, name := name,
               semesters := extract_semesters_from_row row,
               contact_work_hours := cw, independent_work_hours := iw,
               control_work_hours := ctl,
               technologies := none, competencies := none } :: tail)

/-- `parse_base_disciplines(df)`. -/
def parse_base_disciplines : Sheet → Except PyErr (List BaseDiscipline)
  | [] => .ok []
  | row :: rest =>
    if !is_valid_discipline_row row then parse_base_disciplines rest
    else do
      let name ← ilocStr row 2
      if should_skip_discipline (pyStrip name) then parse_base_disciplines rest
      else do
        let code ← ilocStr row 1
        let tail ← parse_base_disciplines rest
        .ok ({ code := pyStrip code, name := pyStrip name, description := none } :: tail)

/-- The plan-sheet result. -/
structure PlanData where
  base_discipline : List BaseDiscipline
  discipline : List DetailedDiscipline
deriving DecidableEq, Repr

/-- `parse_plan_sheet(df)`. -/
def parse_plan_sheet (df : Sheet) : Except PyErr PlanData := do
  let b ← parse_base_disciplines df
  let d ← parse_detailed_disciplines df
  .ok { base_discipline := b, discipline := d }

/-- `extract_valid_codes(plan_data)`: the set of truthy (non-empty) codes of
the detailed disciplines. -/
def extract_valid_codes (plan_data : PlanData) : List String :=
  plan_data.discipline.foldl
    (fun s d => if d.code ≠ "" then setAdd s d.code else s) []

/-! ## The title sheet: grid conversion and `find_adjacent_value` -/

/-- `df_to_list(df)`: every cell as a string, NaN becoming `""`. -/
def df_to_list (df : Sheet) : List (List String) :=
  df.map (fun row => row.map (fun c => match c with | .na => "" | .str s => s))

/-- `find_adjacent_value(data, row_idx, col_idx)`: the stripped cell to the
right if non-blank, else the stripped cell below.  The grid is passed as the
current row plus the next row (all the function inspects). -/
def find_adjacent_value (row : List String) (next : Option (List String))
    (col_idx : Nat) : Option String :=
  let right := match row.get? (col_idx + 1) with
    | some r => if pyStrip r = "" then none else some (pyStrip r)
    | none => none
  match right with
  | some v => some v
  | none =>
    match next with
    | some nr =>
      match nr.get? col_idx with
      | some b => if pyStrip b = "" then none else some (pyStrip b)
      | none => none
    | none => none

/-- Row-major collection of per-cell values, each cell seen with its row,
the following row and its column index (the shape of the source's nested
`for i, row / for j, cell` loops). -/
def collectRow (f : List String → Option (List String) → Nat → String → Option α)
    (row : List String) (next : Option (List String)) : Nat → List String → List α
  | _, [] => []
  | c, cell :: t =>
    (match f row next c cell with | some a => [a] | none => []) ++
      collectRow f row next (c + 1) t

/-- Grid version of `collectRow`. -/
def collectCells (f : List String → Option (List String) → Nat → String → Option α) :
    List (List String) → List α
  | [] => []
  | row :: rest => collectRow f row rest.head? 0 row ++ collectCells f rest

/-! ## `find_code_and_name`: the regex `(\d{2}\.\d{2}\.\d{2})\s*(.+)` -/

/-- The code sub-pattern `\d{2}\.\d{2}\.\d{2}` matches at offset `p`. -/
def isCodePatAt (cs : List Char) (p : Nat) : Bool :=
  match cs.drop p with
  | d1 :: d2 :: dot1 :: d3 :: d4 :: dot2 :: d5 :: d6 :: _ =>
    d1.isDigit && d2.isDigit && dot1 = '.' && d3.isDigit && d4.isDigit &&
      dot2 = '.' && d5.isDigit && d6.isDigit
  | _ => false

/-- Greedy backtracking of `\s*` before `(.+)`: among start offsets
`p8 + k, …, p8` (all preceded by whitespace only), the largest that carries a
character other than `'\n'`. -/
def greedyTailStart (cs : List Char) (p8 : Nat) : Nat → Option Nat
  | 0 =>
    (match cs.get? p8 with
     | some c => if c ≠ '\n' then some p8 else none
     | none => none)
  | k + 1 =>
    (match cs.get? (p8 + k + 1) with
     | some c => if c ≠ '\n' then some (p8 + k + 1) else greedyTailStart cs p8 k
     | none => greedyTailStart cs p8 k)

/-- Attempt of `(\d{2}\.\d{2}\.\d{2})\s*(.+)` at offset `p`, returning the two
groups; `(.+)` runs greedily to the next newline or the end. -/
def codeNameMatchAt (cs : List Char) (p : Nat) : Option (String × String) :=
  if isCodePatAt cs p then
    let wsLen := ((cs.drop (p + 8)).takeWhile isPySpace).length
    match greedyTailStart cs (p + 8) wsLen with
    | some j =>
      some (String.mk ((cs.drop p).take 8),
            String.mk ((cs.drop j).takeWhile (· ≠ '\n')))
    | none => none
  else none

/-- `re.search` for the code/name pattern: leftmost offset wins. -/
def searchCodeName (s : String) : Option (String × String) :=
  (List.range s.data.length).findSome? (codeNameMatchAt s.data)

/-- `find_code_and_name(data)`: first matching cell in row-major order,
pattern applied to the trimmed cell. -/
def find_code_and_name (data : List (List String)) : Option (String × String) :=
  data.flatten.findSome? (fun cell => searchCodeName (pyStrip cell))

/-! ## `find_specialization` and its helpers -/

/-- Leftmost match of `"([^"]+)"`: the first non-empty run between two
double quotes. -/
def searchQuoted : List Char → Option String
  | [] => none
  | c :: t =>
    if c = '"' then
      let seg := t.takeWhile (· ≠ '"')
      if seg.isEmpty then searchQuoted t
      else match t.dropWhile (· ≠ '"') with
        | '"' :: _ => some (String.mk seg)
        | _ => searchQuoted t
    else searchQuoted t

/-- Case-insensitive literal match at the head, returning the remainder. -/
def matchLit (lit : List Char) (cs : List Char) : Option (List Char) :=
  if (cs.take lit.length).map pyLowerChar = lit then some (cs.drop lit.length)
  else none

/-- Group 1 of the specialization-label pattern
`(специализация|профиль|программа\s*магистратуры)` at the head
(case-insensitive, ordered alternation), returning the remainder. -/
def specLabelMatch (cs : List Char) : Option (List Char) :=
  match matchLit "специализация".data cs with
  | some r => some r
  | none =>
    match matchLit "профиль".data cs with
    | some r => some r
    | none =>
      match matchLit "программа".data cs with
      | some r => matchLit "магистратуры".data (r.dropWhile isPySpace)
      | none => none

/-- The greedy optional tail `\s*[nN]?\d?\s*[:"-]*\s*` after the label. -/
def specSuffixChomp (cs : List Char) : List Char :=
  let r1 := cs.dropWhile isPySpace
  let r2 := match r1 with
    | c :: t => if c = 'n' || c = 'N' then t else r1
    | [] => r1
  let r3 := match r2 with
    | c :: t => if c.isDigit then t else r2
    | [] => r2
  let r4 := (r3.dropWhile isPySpace).dropWhile (fun c => c = ':' || c = '"' || c = '-')
  r4.dropWhile isPySpace

/-- `re.sub` of the specialization-label pattern by `""`: delete every
(leftmost, non-overlapping) match.  The fuel is the list length, which every
recursive call strictly decreases, so it is never exhausted. -/
def removeSpecLabelAux : Nat → List Char → List Char
  | 0, cs => cs
  | _ + 1, [] => []
  | fuel + 1, c :: t =>
    match specLabelMatch (c :: t) with
    | some r => removeSpecLabelAux fuel (specSuffixChomp r)
    | none => c :: removeSpecLabelAux fuel t

/-- `re.sub(r'(специализация|...)\s*[nN]?\d?\s*[:"-]*\s*', '', value, IGNORECASE)`. -/
def removeSpecLabel (cs : List Char) : List Char :=
  removeSpecLabelAux cs.length cs

/-- `clean_specialization_value(value)`. -/
def clean_specialization_value (value : String) : String :=
  match searchQuoted value.data with
  | some inner => inner
  | none => pyStrip (String.mk (removeSpecLabel value.data))

/-- `select_best_candidate(candidates)` (call sites guarantee non-empty). -/
def select_best_candidate (candidates : List String) : String :=
  match candidates.find? (fun c => strContains (pyLower c) "магистратур") with
  | some c => c
  | none => candidates.headD ""

/-- `find_specialization(data)`. -/
def find_specialization (data : List (List String)) : Option String :=
  let candidates := collectCells (fun row next j cell =>
    if ["специализация", "профиль", "программа магистратуры"].any
        (fun kw => strContains (pyLower cell) kw) then
      match find_adjacent_value row next j with
      | some value =>
        let clean := clean_specialization_value value
        if clean = "" then none else some clean
      | none => none
    else none) data
  if candidates.isEmpty then none else some (select_best_candidate candidates)

/-! ## `find_department_and_faculty` -/

/-- One cell step of the department/faculty scan. -/
def fdfStep (row : List String) (next : Option (List String)) (col : Nat)
    (cell : String) (st : Option String × Option String) :
    Option String × Option String :=
  let cl := pyLower cell
  if strContains cl "кафедра" && st.1.isNone then
    (find_adjacent_value row next col, st.2)
  else if strContains cl "факультет" && st.2.isNone then
    (st.1, find_adjacent_value row next col)
  else st

/-- Fold of `fdfStep` over one row. -/
def fdfRowFold (row : List String) (next : Option (List String)) :
    Nat → List String → Option String × Option String →
      Option String × Option String
  | _, [], st => st
  | c, cell :: t, st => fdfRowFold row next (c + 1) t (fdfStep row next c cell st)

/-- Fold of the department/faculty scan over the grid. -/
def fdfFold : Option String × Option String → List (List String) →
    Option String × Option String
  | st, [] => st
  | st, row :: rest => fdfFold (fdfRowFold row rest.head? 0 row st) rest

/-- `find_department_and_faculty(data)`. -/
def find_department_and_faculty (data : List (List String)) :
    Option String × Option String :=
  fdfFold (none, none) data

/-! ## `parse_specialty_info` -/

/-- The specialty block of the title-sheet result. -/
structure SpecialtyInfo where
  code : Option String
  name : Option String
  specialization : Option String
  department : Option String
  faculty : Option String
deriving DecidableEq, Repr

/-- `parse_specialty_info(data)`. -/
def parse_specialty_info (data : List (List String)) : SpecialtyInfo :=
  let fc := find_code_and_name data
  let fdf := find_department_and_faculty data
  { code := fc.map Prod.fst
    name := fc.map Prod.snd
    specialization := find_specialization data
    department := fdf.1
    faculty := fdf.2 }

/-! ## `parse_curriculum_info`: duration and year of admission -/

/-- Leftmost match of `(\d+)\s*C` for a character class `C`: maximal digit
run, optional whitespace, then a class character; returns the numeral. -/
def searchNumThen (cls : Char → Bool) : List Char → Option Nat
  | [] => none
  | c :: rest =>
    if c.isDigit then
      let digits := (c :: rest).takeWhile Char.isDigit
      let after := ((c :: rest).dropWhile Char.isDigit).dropWhile isPySpace
      match after with
      | x :: _ => if cls x then some (natOfDigits digits) else searchNumThen cls rest
      | [] => searchNumThen cls rest
    else searchNumThen cls rest

/-- The duration computed from one matching cell: years via `(\d+)\s*[лг]`,
months via `(\d+)\s*м`, both on the lowercased text, then
`(years*12 + months + 5) // 6`. -/
def durationOfCell (cell : String) : Nat :=
  let lowData := (pyLower cell).data
  let years := (searchNumThen (fun ch => ch = 'л' || ch = 'г') lowData).getD 0
  let months := (searchNumThen (fun ch => ch = 'м') lowData).getD 0
  (years * 12 + months + 5) / 6

/-- The inner cell loop of `find_education_duration`. -/
def findDurationInRow : List String → Option Nat
  | [] => none
  | cell :: t =>
    if strContains (pyLower cell) "срок получения образования" then
      some (durationOfCell cell)
    else findDurationInRow t

/-- `find_education_duration(data)`. -/
def find_education_duration : List (List String) → Option Nat
  | [] => none
  | row :: rest => findDurationInRow row <|> find_education_duration rest

/-- Leftmost match of `(20\d{2})`. -/
def searchYear : List Char → Option String
  | c1 :: c2 :: c3 :: c4 :: rest =>
    if c1 = '2' && c2 = '0' && c3.isDigit && c4.isDigit then
      some (String.mk [c1, c2, c3, c4])
    else searchYear (c2 :: c3 :: c4 :: rest)
  | _ => none

/-- `extract_year_from_cell(cell)`: a `20XX` match, range-checked. -/
def extract_year_from_cell (cell : String) : Option String :=
  match searchYear cell.data with
  | some y =>
    if 2000 ≤ natOfDigits y.data && natOfDigits y.data ≤ 2100 then some y else none
  | none => none

/-- First extractable year among a list of cells. -/
def firstYearInList (cells : List String) : Option String :=
  cells.findSome? extract_year_from_cell

/-- Tier (a) lookup from a cell containing "год начала подготовки": the rest
of the row to the right, then the whole next row. -/
def tierA (row : List String) (col_idx : Nat) (next : Option (List String)) :
    Option String :=
  firstYearInList (row.drop (col_idx + 1)) <|>
    (match next with | some nr => firstYearInList nr | none => none)

/-- Tier (b) lookup from a cell containing "утверждаю": the cell itself, then
the window of columns `max(0, c-2) … min(len, c+3))`. -/
def tierB (cell : String) (row : List String) (col_idx : Nat) : Option String :=
  extract_year_from_cell cell <|>
    firstYearInList ((row.drop (col_idx - 2)).take ((col_idx + 3) - (col_idx - 2)))

/-- What one cell of the single keyword scan yields: tier (a) if it carries
the standard phrase, else tier (b) if it carries "утверждаю", else nothing. -/
def cellYearYield (row : List String) (next : Option (List String)) (col : Nat)
    (cell : String) : Option String :=
  let cl := pyLower cell
  if strContains cl "год начала подготовки" then tierA row col next
  else if strContains cl "утверждаю" then tierB cell row col
  else none

/-- The keyword scan over one row (early return on the first yield). -/
def yearScanRow (row : List String) (next : Option (List String)) :
    Nat → List String → Option String
  | _, [] => none
  | c, cell :: t => cellYearYield row next c cell <|> yearScanRow row next (c + 1) t

/-- The keyword scan over the grid. -/
def yearKeywordScan : List (List String) → Option String
  | [] => none
  | row :: rest => yearScanRow row rest.head? 0 row <|> yearKeywordScan rest

/-- `find_year_of_admission(data)`: the keyword scan, then tier (c) — the
first extractable year anywhere in row-major order. -/
def find_year_of_admission (data : List (List String)) : Option String :=
  yearKeywordScan data <|> data.flatten.findSome? extract_year_from_cell

/-- The curriculum block of the title-sheet result. -/
structure CurriculumInfo where
  education_duration : Option Nat
  year_of_admission : Option String
  is_active : Bool
deriving DecidableEq, Repr

/-- `parse_curriculum_info(data)`. -/
def parse_curriculum_info (data : List (List String)) : CurriculumInfo :=
  { education_duration := find_education_duration data
    year_of_admission := find_year_of_admission data
    is_active := true }

/-- The title-sheet result. -/
structure TitulData where
  speciality : SpecialtyInfo
  curriculum : CurriculumInfo
deriving DecidableEq, Repr

/-- `parse_titul_sheet(df)`. -/
def parse_titul_sheet (df : Sheet) : TitulData :=
  let all_data := df_to_list df
  { speciality := parse_specialty_info all_data
    curriculum := parse_curriculum_info all_data }

/-! ## The orchestrator `parse_excel_file` -/

/-- The top-level parse result; a missing key of the Python dict is `none`. -/
structure ParseResult where
  titul : Option TitulData
  plan : Option PlanData
  competencies : List CompetencyLink
deriving DecidableEq, Repr

/-- `xls.sheet_names`. -/
def sheet_names (wb : Workbook) : List String := wb.map Prod.fst

/-- `pd.read_excel(xls, sheet_name=nm)` guarded by `nm in xls.sheet_names`. -/
def readSheet (wb : Workbook) (nm : String) : Option Sheet :=
  (wb.find? (fun e => e.1 = nm)).map Prod.snd

/-- `parse_excel_file(file_path)` on an opened workbook. -/
def parse_excel_file (wb : Workbook) : Except PyErr ParseResult := do
  let titul := (readSheet wb "Титул").map parse_titul_sheet
  match readSheet wb "ПланСвод" with
  | some df => do
    let plan ← parse_plan_sheet df
    let valid_codes := extract_valid_codes plan
    let comps := match readSheet wb "Компетенции(2)" with
      | some dfc => parse_competencies_sheet dfc valid_codes
      | none => []
    .ok { titul := titul, plan := some plan, competencies := comps }
  | none =>
    let comps := match readSheet wb "Компетенции(2)" with
      | some dfc => parse_competencies_sheet dfc []
      | none => []
    .ok { titul := titul, plan := none, competencies := comps }

/-! ## The summarizer `get_excel_summary` -/

/-- The digest fields (a key absent from the Python dict is `none`). -/
structure SummaryData where
  specialty_code : Option String
  specialty_name : Option String
  specialization : Option String
  department : Option String
  faculty : Option String
  year_of_admission : Option String
  education_duration : Option Nat
deriving DecidableEq, Repr

/-- The summarizer's result object. -/
structure SummaryResult where
  success : Bool
  error : Option String
  summary : Option SummaryData
  competencies_count : Option Nat
  disciplines_count : Option Nat
deriving DecidableEq, Repr

/-- Keep a string only when truthy (non-empty), as the walrus guards do. -/
def truthyStr : Option String → Option String
  | some s => if s = "" then none else some s
  | none => none

/-- Keep a number only when truthy (non-zero). -/
def truthyNat : Option Nat → Option Nat
  | some n => if n = 0 then none else some n
  | none => none

/-- Rendering of an exception for the failure message. -/
def pyErrStr : PyErr → String
  | .valueError => "ValueError"
  | .typeError => "TypeError"
  | .overflowError => "OverflowError"
  | .indexError => "IndexError"
  | .generic m => m

/-- The summary-building body of `get_excel_summary` (after the successful
parse): one field per truthy source value. -/
def buildSummary (p : ParseResult) : SummaryResult :=
  let sdata : SummaryData := match p.titul with
    | none =>
      { specialty_code := none, specialty_name := none, specialization := none
        department := none, faculty := none, year_of_admission := none
        education_duration := none }
    | some t =>
      { specialty_code := truthyStr t.speciality.code
        specialty_name := truthyStr t.speciality.name
        specialization := truthyStr t.speciality.specialization
        department := truthyStr t.speciality.department
        faculty := truthyStr t.speciality.faculty
        year_of_admission := truthyStr t.curriculum.year_of_admission
        education_duration := truthyNat t.curriculum.education_duration }
  { success := true
    error := none
    summary := some sdata
    competencies_count :=
      if p.competencies.isEmpty then none else some p.competencies.length
    disciplines_count := match p.plan with
      | some pl => if pl.discipline.isEmpty then none else some pl.discipline.length
      | none => none }

/-- `get_excel_summary(file_path)`: the whole pipeline under a
`try/except Exception` that maps any exception to a structured failure
object.  The workbook loader is abstracted as `fs`. -/
def get_excel_summary (fs : String → Except PyErr Workbook) (file_path : String) :
    Except PyErr SummaryResult :=
  match (do
    let wb ← fs file_path
    let parsed ← parse_excel_file wb
    pure (buildSummary parsed) : Except PyErr SummaryResult) with
  | .ok s => .ok s
  | .error e =>
    .ok { success := false
          error := some ("Не удалось извлечь информацию: " ++ pyErrStr e)
          summary := none, competencies_count := none, disciplines_count := none }

/-! ## Helper lemmas -/

theorem exceptBind_ok (a : α) (f : α → Except ε β) :
    (Except.ok a >>= f) = f a := rfl

theorem exceptBind_error (e : ε) (f : α → Except ε β) :
    ((Except.error e : Except ε α) >>= f) = .error e := rfl

/-- `float()` on a string can only fail with a `ValueError`. -/
theorem pyFloatOfString_error {s : String} {e : PyErr}
    (h : pyFloatOfString s = .error e) : e = .valueError := by
  simp only [pyFloatOfString] at h
  split at h <;> try exact absurd h (by simp)
  split at h <;> try exact absurd h (by simp)
  split at h
  · exact (Except.error.injEq _ _ ▸ h).symm ▸ rfl
  · split at h <;> exact absurd h (by simp)

/-! ## Claim theorems -/

/-- C9: for every filesystem behaviour and file path, `get_excel_summary`
returns (never raises) either a success object or a structured failure object
carrying an error message. -/
theorem C9_summary_never_raises (fs : String → Except PyErr Workbook)
    (path : String) :
    ∃ r, get_excel_summary fs path = .ok r ∧
      (r.success = true ∨ (r.success = false ∧ r.error.isSome = true)) := by
  rcases hfs : fs path with e | wb
  · refine ⟨{ success := false
              error := some ("Не удалось извлечь информацию: " ++ pyErrStr e)
              summary := none, competencies_count := none, disciplines_count := none },
      ?_, Or.inr ⟨rfl, rfl⟩⟩
    simp [get_excel_summary, hfs, exceptBind_error]
  · rcases hp : parse_excel_file wb with e | parsed
    · refine ⟨{ success := false
                error := some ("Не удалось извлечь информацию: " ++ pyErrStr e)
                summary := none, competencies_count := none, disciplines_count := none },
        ?_, Or.inr ⟨rfl, rfl⟩⟩
      simp [get_excel_summary, hfs, hp, exceptBind_ok, exceptBind_error]
    · refine ⟨buildSummary parsed, ?_, Or.inl rfl⟩
      simp [get_excel_summary, hfs, hp, exceptBind_ok]

/-- C6 (counterexample): an hours cell containing the text `"inf"` makes
`parse_hours` raise an (uncaught) `OverflowError` — the extraction does not
"never raise". -/
theorem C6_counterexample :
    parse_hours (List.replicate 13 (Cell.str "") ++ [Cell.str "inf"]) 13 =
      .error .overflowError := by rfl

/-- C6 (amended): `parse_hours` is null-or-value and never raises, provided
the cell's float conversion does not produce an infinity; absent and NaN
cells give null, and conversion failures raising `ValueError`/`TypeError`
(such as the text `"н/д"`) are caught and mapped to null. -/
theorem C6_hours_no_raise (row : List Cell) (col_idx : Nat)
    (h : ∀ c, row.get? col_idx = some c →
      ∀ b, pyFloatOfString c.pyStr ≠ .ok (.inf b)) :
    ∃ v, parse_hours row col_idx = .ok v := by
  unfold parse_hours
  cases hc : row.get? col_idx with
  | none => exact ⟨none, rfl⟩
  | some c =>
    by_cases hna : c.isna = true
    · exact ⟨none, by simp [hna]⟩
    · simp only [Bool.not_eq_true] at hna
      rcases hpf : pyFloatOfString c.pyStr with e | v
      · have := pyFloatOfString_error hpf
        subst this
        exact ⟨none, by simp [hna, hpf, exceptBind_error]⟩
      · cases v with
        | finite q => exact ⟨some (ratTrunc q), by simp [hna, hpf, exceptBind_ok, pyIntOfFloat]⟩
        | inf b => exact absurd hpf (h c hc b)
        | nan => exact ⟨none, by simp [hna, hpf, exceptBind_ok, pyIntOfFloat]⟩

/-- C6 (witness): the amended theorem applied to a row whose column 13 holds
the text `"н/д"`. -/
theorem C6_hours_no_raise_witness :
    (∀ c, (List.replicate 13 (Cell.str "") ++ [Cell.str "н/д"]).get? 13 = some c →
      ∀ b, pyFloatOfString c.pyStr ≠ .ok (.inf b)) ∧
    ∃ v, parse_hours (List.replicate 13 (Cell.str "") ++ [Cell.str "н/д"]) 13 = .ok v := by
  have h : ∀ c, (List.replicate 13 (Cell.str "") ++ [Cell.str "н/д"]).get? 13 = some c →
      ∀ b, pyFloatOfString c.pyStr ≠ .ok (.inf b) := by
    intro c hc b
    have hcc : c = Cell.str "н/д" := by
      simp [List.get?] at hc
      exact hc.symm
    subst hcc
    have hv : pyFloatOfString (Cell.str "н/д").pyStr = .error .valueError := rfl
    rw [hv]
    simp
  exact ⟨h, C6_hours_no_raise _ 13 h⟩

/-- C5 (counterexample): a competency row whose competency cell is `";"`
(non-blank) is emitted with an *empty* competency list — the row is not
skipped when the split-and-trim list is empty, only when the trimmed cell
text is empty. -/
theorem C5_counterexample :
    parse_competencies_sheet
        [[Cell.str "", Cell.str "", Cell.str "Б1.О.01",
          Cell.str "", Cell.str "", Cell.str ";"]] [] =
      [{ code := "Б1.О.01", competency := [] }] ∧
    ¬ (∀ l ∈ parse_competencies_sheet
        [[Cell.str "", Cell.str "", Cell.str "Б1.О.01",
          Cell.str "", Cell.str "", Cell.str ";"]] [],
        l.competency ≠ []) := by
  refine ⟨rfl, ?_⟩
  intro hall
  exact hall { code := "Б1.О.01", competency := [] } (by rw [show parse_competencies_sheet
        [[Cell.str "", Cell.str "", Cell.str "Б1.О.01",
          Cell.str "", Cell.str "", Cell.str ";"]] [] =
      [{ code := "Б1.О.01", competency := [] }] from rfl]; exact List.mem_singleton.mpr rfl) rfl

/-- C5 (amended): every emitted CompetencyLink has a non-empty code (rows
with an empty normalized code or an empty trimmed competency cell are
skipped), but its competency list may be empty. -/
theorem C5_nonempty_code (df : Sheet) (vc : List String) (l : CompetencyLink)
    (hm : l ∈ parse_competencies_sheet df vc) : l.code ≠ "" := by
  simp only [parse_competencies_sheet] at hm
  rw [List.mem_filterMap] at hm
  obtain ⟨row, -, heq⟩ := hm
  rcases h2 : row[2]? with _ | cc
  · simp [competencyRow, h2] at heq
  · rcases h5 : row[5]? with _ | pc
    · simp [competencyRow, h2, h5] at heq
    · simp only [competencyRow, List.get?_eq_getElem?, h2, h5] at heq
      split at heq
      · exact absurd heq (by simp)
      · split at heq
        · exact absurd heq (by simp)
        · next hguard =>
          injection heq with heq'
          rw [← heq']
          simp only [Bool.or_eq_true, decide_eq_true_eq, not_or] at hguard
          exact hguard.1

/-- C5 (witness): the amended theorem applied to a concrete sheet. -/
theorem C5_nonempty_code_witness :
    ({ code := "ПК-1", competency := ["ОПК-1"] } : CompetencyLink) ∈
      parse_competencies_sheet
        [[Cell.str "", Cell.str "", Cell.str "ПК-1(доп)",
          Cell.str "", Cell.str "", Cell.str "ОПК-1"]] ["X"] ∧
    ({ code := "ПК-1", competency := ["ОПК-1"] } : CompetencyLink).code ≠ "" := by
  have hm : ({ code := "ПК-1", competency := ["ОПК-1"] } : CompetencyLink) ∈
      parse_competencies_sheet
        [[Cell.str "", Cell.str "", Cell.str "ПК-1(доп)",
          Cell.str "", Cell.str "", Cell.str "ОПК-1"]] ["X"] := by decide
  exact ⟨hm, C5_nonempty_code _ _ _ hm⟩

/-- C1: the competency output is *not* restricted to the plan sheet's valid
codes — `parse_competencies_sheet` ignores its `valid_codes` argument, so a
workbook whose plan yields valid codes `{"Б1.О.01"}` still emits the
competency record coded `"ФТД.01"`. -/
theorem C1_valid_codes_not_applied :
    (parse_excel_file
        [("ПланСвод", [[Cell.str "+", Cell.str "Б1.О.01", Cell.str "Математика"]]),
         ("Компетенции(2)", [[Cell.str "", Cell.str "", Cell.str "ФТД.01",
                              Cell.str "", Cell.str "", Cell.str "ОПК-1"]])]).toOption.map
        (fun r => (r.competencies.map CompetencyLink.code, r.plan.map extract_valid_codes))
      = some (["ФТД.01"], some ["Б1.О.01"]) ∧
    "ФТД.01" ∉ ["Б1.О.01"] := by
  refine ⟨rfl, ?_⟩
  decide

/-! ## C4: education duration -/

/-- The spec's `ceil(total_months / 6)`, written as a genuine ceiling. -/
def specCeilSemesters (total_months : Nat) : Nat :=
  if total_months % 6 = 0 then total_months / 6 else total_months / 6 + 1

/-- The claim's description of the duration computation: the first cell in
row-major order containing the phrase, years and months extracted from its
lowercased text, and the ceiling of `total_months / 6`. -/
def spec_education_duration (data : List (List String)) : Option Nat :=
  (data.flatten.find?
      (fun cell => strContains (pyLower cell) "срок получения образования")).map
    (fun cell =>
      let lowData := (pyLower cell).data
      specCeilSemesters
        (12 * (searchNumThen (fun ch => ch = 'л' || ch = 'г') lowData).getD 0 +
          (searchNumThen (fun ch => ch = 'м') lowData).getD 0))

theorem ceil_div_six (y m : Nat) :
    (y * 12 + m + 5) / 6 = specCeilSemesters (12 * y + m) := by
  unfold specCeilSemesters
  split <;> omega

theorem durationOfCell_eq_spec (cell : String) :
    durationOfCell cell =
      specCeilSemesters
        (12 * (searchNumThen (fun ch => ch = 'л' || ch = 'г') (pyLower cell).data).getD 0 +
          (searchNumThen (fun ch => ch = 'м') (pyLower cell).data).getD 0) := by
  unfold durationOfCell
  exact ceil_div_six _ _

theorem findDurationInRow_eq_find? (row : List String) :
    findDurationInRow row =
      (row.find?
          (fun cell => strContains (pyLower cell) "срок получения образования")).map
        durationOfCell := by
  induction row with
  | nil => rfl
  | cons c t ih =>
    by_cases h : strContains (pyLower c) "срок получения образования" = true
    · simp [findDurationInRow, List.find?, h]
    · simp [findDurationInRow, List.find?, h, ih]

/-- C4: `find_education_duration` is exactly the first-phrase-cell,
regex-years/months, ceiling-of-sixths computation the claim describes; in
particular a cell "Срок получения образования: 4 года 3 месяца" yields 9
semesters, and a grid without the phrase yields null. -/
theorem C4_education_duration :
    (∀ data, find_education_duration data = spec_education_duration data) ∧
    find_education_duration [["Срок получения образования: 4 года 3 месяца"]] = some 9 ∧
    find_education_duration [["учебный план бакалавриата"]] = none := by
  refine ⟨?_, rfl, rfl⟩
  intro data
  induction data with
  | nil => rfl
  | cons row rest ih =>
    unfold find_education_duration spec_education_duration
    rw [List.flatten_cons, List.find?_append, findDurationInRow_eq_find?]
    cases hf : row.find?
        (fun cell => strContains (pyLower cell) "срок получения образования") with
    | some c =>
      simp [hf, durationOfCell_eq_spec]
    | none =>
      simp only [hf, Option.map_none', Option.none_orElse]
      rw [ih, spec_education_duration]
      simp

/-! ## C7: removing the competencies sheet -/

/-- A workbook with every sheet of a given name removed. -/
def removeSheet (wb : Workbook) (nm : String) : Workbook :=
  wb.filter (fun e => e.1 ≠ nm)

theorem readSheet_removeSheet_ne (wb : Workbook) {nm nm' : String}
    (h : nm' ≠ nm) : readSheet (removeSheet wb nm) nm' = readSheet wb nm' := by
  induction wb with
  | nil => rfl
  | cons e t ih =>
    by_cases he : e.1 = nm
    · have hkeep : (decide (e.1 ≠ nm) : Bool) = false := by simp [he]
      have hfind : (decide (e.1 = nm') : Bool) = false := by
        simp only [decide_eq_false_iff_not]
        intro hc
        exact h (he.symm.trans hc).symm
      simp only [removeSheet, List.filter_cons, hkeep, if_false, readSheet,
        List.find?_cons, hfind]
      exact ih
    · have hkeep : (decide (e.1 ≠ nm) : Bool) = true := by simp [he]
      by_cases hm : e.1 = nm'
      · simp [removeSheet, List.filter_cons, hkeep, readSheet, List.find?_cons, hm, h]
      · have hfind : (decide (e.1 = nm') : Bool) = false := by simp [hm]
        simp only [removeSheet, List.filter_cons, hkeep, if_true, readSheet,
          List.find?_cons, hfind]
        exact ih

theorem readSheet_removeSheet_self (wb : Workbook) (nm : String) :
    readSheet (removeSheet wb nm) nm = none := by
  induction wb with
  | nil => rfl
  | cons e t ih =>
    by_cases he : e.1 = nm
    · have hkeep : (decide (e.1 ≠ nm) : Bool) = false := by simp [he]
      simp only [removeSheet, List.filter_cons, hkeep, if_false]
      exact ih
    · have hkeep : (decide (e.1 ≠ nm) : Bool) = true := by simp [he]
      have hfind : (decide (e.1 = nm) : Bool) = false := by simp [he]
      simp only [removeSheet, List.filter_cons, hkeep, if_true, readSheet,
        List.find?_cons, hfind]
      exact ih

/-- C7: removing the "Компетенции(2)" sheet changes only the `competencies`
field, which becomes the empty list; `titul` and `plan` are unchanged (and an
error raised during plan parsing is raised identically for both workbooks). -/
theorem C7_sheet_independence (wb : Workbook)
    (h1 : (readSheet wb "Титул").isSome = true)
    (h2 : (readSheet wb "ПланСвод").isSome = true)
    (h3 : (readSheet wb "Компетенции(2)").isSome = true) :
    (parse_excel_file (removeSheet wb "Компетенции(2)")).map
        (fun r => (r.titul, r.plan)) =
      (parse_excel_file wb).map (fun r => (r.titul, r.plan)) ∧
    ∀ r', parse_excel_file (removeSheet wb "Компетенции(2)") = .ok r' →
      r'.competencies = [] := by
  have htit : readSheet (removeSheet wb "Компетенции(2)") "Титул" =
      readSheet wb "Титул" := readSheet_removeSheet_ne wb (by decide)
  have hplan : readSheet (removeSheet wb "Компетенции(2)") "ПланСвод" =
      readSheet wb "ПланСвод" := readSheet_removeSheet_ne wb (by decide)
  have hcomp : readSheet (removeSheet wb "Компетенции(2)") "Компетенции(2)" = none :=
    readSheet_removeSheet_self wb _
  unfold parse_excel_file
  rw [htit, hplan, hcomp]
  cases hp : readSheet wb "ПланСвод" with
  | none =>
    constructor
    · rfl
    · intro r' hr'
      simp only [exceptBind_ok] at hr'
      cases hr'
      rfl
  | some df =>
    cases hpp : parse_plan_sheet df with
    | error e =>
      constructor
      · simp [hpp, exceptBind_error]
      · intro r' hr'
        simp only [hpp, exceptBind_error] at hr'
        exact absurd hr' (by simp)
    | ok plan =>
      constructor
      · simp only [hpp, exceptBind_ok]
        rfl
      · intro r' hr'
        simp only [hpp, exceptBind_ok] at hr'
        injection hr' with hr''
        subst hr''
        rfl

/-- C7 (witness): the theorem applied to a three-sheet workbook. -/
theorem C7_sheet_independence_witness :
    (readSheet [("Титул", ([] : Sheet)), ("ПланСвод", []), ("Компетенции(2)", [])]
        "Титул").isSome = true ∧
    (readSheet [("Титул", ([] : Sheet)), ("ПланСвод", []), ("Компетенции(2)", [])]
        "ПланСвод").isSome = true ∧
    (readSheet [("Титул", ([] : Sheet)), ("ПланСвод", []), ("Компетенции(2)", [])]
        "Компетенции(2)").isSome = true ∧
    ((parse_excel_file (removeSheet
          [("Титул", ([] : Sheet)), ("ПланСвод", []), ("Компетенции(2)", [])]
          "Компетенции(2)")).map (fun r => (r.titul, r.plan)) =
      (parse_excel_file
          [("Титул", ([] : Sheet)), ("ПланСвод", []), ("Компетенции(2)", [])]).map
        (fun r => (r.titul, r.plan)) ∧
      ∀ r', parse_excel_file (removeSheet
          [("Титул", ([] : Sheet)), ("ПланСвод", []), ("Компетенции(2)", [])]
          "Компетенции(2)") = .ok r' → r'.competencies = []) :=
  ⟨rfl, rfl, rfl, C7_sheet_independence _ rfl rfl rfl⟩

/-! ## C10: bare specialty-code cells -/

theorem isCodePatAt_length {cs : List Char} {p : Nat}
    (h : isCodePatAt cs p = true) : p + 8 ≤ cs.length := by
  unfold isCodePatAt at h
  split at h
  · next d1 d2 dot1 d3 d4 dot2 d5 d6 rest heq =>
    have hl : (cs.drop p).length = 8 + rest.length := by rw [heq]; simp; omega
    have hld : (cs.drop p).length = cs.length - p := List.length_drop p cs
    omega
  · exact absurd h (by simp)

/-- C10: when every cell's trimmed text carries a specialty code only at the
very end (in particular a bare code cell such as "09.03.01"), the code/name
regex — which demands at least one character after the code — never matches,
and both `code` and `name` of the specialty info stay null. -/
theorem C10_bare_code_no_match (data : List (List String))
    (h : ∀ row ∈ data, ∀ cell ∈ row, ∀ p,
      isCodePatAt (pyStrip cell).data p = true →
        (pyStrip cell).data.length = p + 8) :
    (parse_specialty_info data).code = none ∧
      (parse_specialty_info data).name = none := by
  have hfcn : find_code_and_name data = none := by
    unfold find_code_and_name
    rw [List.findSome?_eq_none]
    intro cell hcell
    obtain ⟨row, hrow, hc⟩ := List.mem_flatten.mp hcell
    unfold searchCodeName
    rw [List.findSome?_eq_none]
    intro p hp
    unfold codeNameMatchAt
    by_cases hcp : isCodePatAt (pyStrip cell).data p = true
    · have hlen := h row hrow cell hc p hcp
      have hdrop : (pyStrip cell).data.drop (p + 8) = [] :=
        List.drop_eq_nil_of_le (by omega)
      have hget : (pyStrip cell).data[p + 8]? = none :=
        List.getElem?_eq_none (by omega)
      simp [hcp, hdrop, greedyTailStart, hget]
    · simp [hcp]
  unfold parse_specialty_info
  simp [hfcn]

/-- C10 (witness): the theorem applied to a grid holding the single bare
code cell "09.03.01". -/
theorem C10_bare_code_no_match_witness :
    (∀ row ∈ [["09.03.01"]], ∀ cell ∈ row, ∀ p,
      isCodePatAt (pyStrip cell).data p = true →
        (pyStrip cell).data.length = p + 8) ∧
    ((parse_specialty_info [["09.03.01"]]).code = none ∧
      (parse_specialty_info [["09.03.01"]]).name = none) := by
  have h : ∀ row ∈ [["09.03.01"]], ∀ cell ∈ row, ∀ p,
      isCodePatAt (pyStrip cell).data p = true →
        (pyStrip cell).data.length = p + 8 := by
    intro row hrow cell hcell p hp
    simp only [List.mem_singleton] at hrow
    subst hrow
    simp only [List.mem_singleton] at hcell
    subst hcell
    have hb := isCodePatAt_length hp
    have hlen : (pyStrip "09.03.01").data.length = 8 := rfl
    omega
  exact ⟨h, C10_bare_code_no_match _ h⟩

/-! ## C2: year-of-admission scan order -/

/-- The row following row `i` of a grid (what the source reads as
`data[row_idx + 1]` when present). -/
def nextRow (data : List (List String)) (i : Nat) : Option (List String) :=
  (data.drop (i + 1)).head?

theorem yearScanRow_skip (row : List String) (next : Option (List String)) :
    ∀ (c : Nat) (cs : List String),
      (∀ k cell', cs.get? k = some cell' →
        cellYearYield row next (c + k) cell' = none) →
      yearScanRow row next c cs = none := by
  intro c cs
  induction cs generalizing c with
  | nil => intro _; rfl
  | cons cell t ih =>
    intro hall
    have h0 : cellYearYield row next c cell = none := by
      have := hall 0 cell rfl
      simpa using this
    have ht : yearScanRow row next (c + 1) t = none := by
      apply ih
      intro k cell' hk
      have := hall (k + 1) cell' hk
      have harith : c + (k + 1) = c + 1 + k := by omega
      rw [harith] at this
      exact this
    rw [yearScanRow, h0, ht]
    rfl

theorem yearScanRow_hit (row : List String) (next : Option (List String))
    (y : String) :
    ∀ (c : Nat) (cs : List String) (j₀ : Nat) (cell : String),
      cs.get? j₀ = some cell →
      cellYearYield row next (c + j₀) cell = some y →
      (∀ k cell', k < j₀ → cs.get? k = some cell' →
        cellYearYield row next (c + k) cell' = none) →
      yearScanRow row next c cs = some y := by
  intro c cs
  induction cs generalizing c with
  | nil => intro j₀ cell h; exact absurd h (by simp)
  | cons cell₀ t ih =>
    intro j₀ cell hget hyield hearl
    cases j₀ with
    | zero =>
      have hc : cell₀ = cell := by simpa using hget
      subst hc
      rw [yearScanRow]
      have : cellYearYield row next c cell₀ = some y := by
        simpa using hyield
      rw [this]
      rfl
    | succ k =>
      have h0 : cellYearYield row next c cell₀ = none := by
        have := hearl 0 cell₀ (Nat.succ_pos k) rfl
        simpa using this
      rw [yearScanRow, h0]
      have harith : c + (k + 1) = c + 1 + k := by omega
      have ht : yearScanRow row next (c + 1) t = some y := by
        apply ih (c + 1) k cell (by simpa using hget)
        · rw [← harith]; exact hyield
        · intro k' cell' hk' hget'
          have := hearl (k' + 1) cell' (by omega) (by simpa using hget')
          have harith' : c + (k' + 1) = c + 1 + k' := by omega
          rw [harith'] at this
          exact this
      rw [ht]
      rfl

theorem yearKeywordScan_hit :
    ∀ (data : List (List String)) (i j : Nat) (row : List String)
      (cell y : String),
      data.get? i = some row → row.get? j = some cell →
      cellYearYield row (nextRow data i) j cell = some y →
      (∀ i' j' row' cell',
        (i' < i ∨ (i' = i ∧ j' < j)) → data.get? i' = some row' →
        row'.get? j' = some cell' →
        cellYearYield row' (nextRow data i') j' cell' = none) →
      yearKeywordScan data = some y := by
  intro data
  induction data with
  | nil => intro i j row cell y h; exact absurd h (by simp)
  | cons r rest ih =>
    intro i j row cell y hrow hcell hyield hearl
    cases i with
    | zero =>
      have hr : r = row := by simpa using hrow
      subst hr
      have hscan : yearScanRow r rest.head? 0 r = some y := by
        apply yearScanRow_hit r rest.head? y 0 r j cell hcell
        · simpa using hyield
        · intro k cell' hk hget'
          have := hearl 0 k r cell' (Or.inr ⟨rfl, hk⟩) rfl hget'
          simpa using this
      rw [yearKeywordScan, hscan]
      rfl
    | succ i' =>
      have hskip : yearScanRow r rest.head? 0 r = none := by
        apply yearScanRow_skip
        intro k cell' hget'
        have := hearl 0 k r cell' (Or.inl (Nat.succ_pos i')) rfl hget'
        simpa using this
      rw [yearKeywordScan, hskip]
      have hrest : yearKeywordScan rest = some y := by
        apply ih i' j row cell y hrow hcell hyield
        intro i'' j'' row' cell' hlt hrow' hcell'
        exact hearl (i'' + 1) j'' row' cell' (by omega) hrow' hcell'
      rw [hrest]
      rfl

/-- C2 (counterexample): the tiers are interleaved, not exhausted grid-wide:
in a grid whose first cell contains "утверждаю 2020" and whose second row
carries "год начала подготовки" with the year "2021" findable by tier (a),
the code returns "2020", not the tier-(a) year "2021". -/
theorem C2_counterexample :
    find_year_of_admission
        [["утверждаю 2020"], ["год начала подготовки", "2021"]] = some "2020" ∧
    strContains (pyLower "год начала подготовки") "год начала подготовки" = true ∧
    tierA ["год начала подготовки", "2021"] 0
        (nextRow [["утверждаю 2020"], ["год начала подготовки", "2021"]] 1) =
      some "2021" ∧
    ("2020" : String) ≠ "2021" := by
  refine ⟨rfl, rfl, rfl, ?_⟩
  decide

/-- C2 (amended): the grid is scanned once in row-major order with the two
keyword tiers interleaved — the first cell whose branch (tier (a) for cells
containing "год начала подготовки", else tier (b) for "утверждаю") yields a
year wins; in particular a tier-(a) cell's year is returned whenever no
earlier cell's branch yields anything.  Tier (c) fires only when the whole
keyword scan yields nothing. -/
theorem C2_year_scan_interleaved (data : List (List String)) (i j : Nat)
    (row : List String) (cell y : String)
    (hrow : data.get? i = some row) (hcell : row.get? j = some cell)
    (hphrase : strContains (pyLower cell) "год начала подготовки" = true)
    (hyield : tierA row j (nextRow data i) = some y)
    (hearlier : ∀ i' j' row' cell',
      (i' < i ∨ (i' = i ∧ j' < j)) → data.get? i' = some row' →
      row'.get? j' = some cell' →
      cellYearYield row' (nextRow data i') j' cell' = none) :
    find_year_of_admission data = some y ∧
    (∀ d, yearKeywordScan d = none →
      find_year_of_admission d = d.flatten.findSome? extract_year_from_cell) := by
  constructor
  · have hks : yearKeywordScan data = some y := by
      apply yearKeywordScan_hit data i j row cell y hrow hcell _ hearlier
      rw [cellYearYield, hphrase]
      simpa using hyield
    rw [find_year_of_admission, hks]
    rfl
  · intro d hd
    rw [find_year_of_admission, hd]
    rfl

/-- C2 (witness): the amended theorem applied to a one-row grid whose first
cell carries the phrase and whose second cell carries the year. -/
theorem C2_year_scan_interleaved_witness :
    strContains (pyLower "год начала подготовки") "год начала подготовки" = true ∧
    tierA ["год начала подготовки", "2021"] 0
        (nextRow [["год начала подготовки", "2021"]] 0) = some "2021" ∧
    find_year_of_admission [["год начала подготовки", "2021"]] = some "2021" := by
  have hearlier : ∀ i' j' row' cell',
      (i' < 0 ∨ (i' = 0 ∧ j' < 0)) →
      ([["год начала подготовки", "2021"]] : List (List String)).get? i' = some row' →
      row'.get? j' = some cell' →
      cellYearYield row' (nextRow [["год начала подготовки", "2021"]] i') j' cell' =
        none := by
    rintro i' j' row' cell' (h | ⟨-, h⟩) <;> exact absurd h (Nat.not_lt_zero _)
  exact ⟨rfl, rfl,
    (C2_year_scan_interleaved [["год начала подготовки", "2021"]] 0 0
      ["год начала подготовки", "2021"] "год начала подготовки" "2021"
      rfl rfl rfl rfl hearlier).1⟩

/-! ## C8: department and faculty -/

/-- First `some` in a list of options (the value an early-return scan keeps). -/
def firstSome : List (Option String) → Option String
  | [] => none
  | o :: t => o <|> firstSome t

/-- The adjacency value of a cell when its lowercased text contains `word` —
the spec-side description of one keyword consultation. -/
def adjIfWord (word : String) (row : List String) (next : Option (List String))
    (c : Nat) (cell : String) : Option (Option String) :=
  if strContains (pyLower cell) word then some (find_adjacent_value row next c)
  else none

/-- All adjacency values of `word`-cells in row-major order. -/
def collectWordAdj (word : String) (data : List (List String)) :
    List (Option String) :=
  collectCells (adjIfWord word) data

theorem firstSome_append (a b : List (Option String)) :
    firstSome (a ++ b) = (firstSome a <|> firstSome b) := by
  induction a with
  | nil => rfl
  | cons o t ih =>
    rw [List.cons_append, firstSome, firstSome, ih]
    cases o <;> rfl

theorem fdfStep_fst_some (row : List String) (next : Option (List String))
    (c : Nat) (cell : String) (dv : String) (f : Option String) :
    (fdfStep row next c cell (some dv, f)).1 = some dv := by
  unfold fdfStep
  simp only [Option.isNone_some, Bool.and_false, Bool.false_eq_true, if_false]
  split <;> rfl

theorem fdfStep_snd_nofak (row : List String) (next : Option (List String))
    (c : Nat) (cell : String) (d f : Option String)
    (hf : ¬ strContains (pyLower cell) "факультет" = true) :
    (fdfStep row next c cell (d, f)).2 = f := by
  unfold fdfStep
  simp only [Bool.not_eq_true] at hf
  simp only [hf, Bool.false_and, Bool.false_eq_true, if_false]
  split <;> rfl

theorem fdf_dept_row (row : List String) (next : Option (List String)) :
    ∀ (cs : List String) (c : Nat) (d f : Option String),
      (fdfRowFold row next c cs (d, f)).1 =
        (d <|> firstSome (collectRow (adjIfWord "кафедра") row next c cs)) := by
  intro cs
  induction cs with
  | nil => intro c d f; cases d <;> rfl
  | cons cell t ih =>
    intro c d f
    rw [fdfRowFold]
    have h1 := ih (c + 1) (fdfStep row next c cell (d, f)).1
      (fdfStep row next c cell (d, f)).2
    rw [Prod.mk.eta] at h1
    rw [h1, collectRow]
    by_cases hk : strContains (pyLower cell) "кафедра" = true
    · cases d with
      | none =>
        have hs : (fdfStep row next c cell (none, f)).1 =
            find_adjacent_value row next c := by
          simp [fdfStep, hk]
        rw [hs]
        simp only [adjIfWord, hk, if_true, List.singleton_append, firstSome,
          Option.none_orElse]
      | some dv =>
        rw [fdfStep_fst_some]
        simp only [adjIfWord, hk, if_true, List.singleton_append, firstSome,
          Option.some_orElse]
    · have hs : (fdfStep row next c cell (d, f)).1 = d := by
        simp only [Bool.not_eq_true] at hk
        unfold fdfStep
        simp only [hk, Bool.false_and, Bool.false_eq_true, if_false]
        split <;> rfl
      rw [hs]
      simp only [adjIfWord, hk, Bool.false_eq_true, if_false, List.nil_append]

theorem fdf_dept (data : List (List String)) :
    ∀ (d f : Option String),
      (fdfFold (d, f) data).1 =
        (d <|> firstSome (collectCells (adjIfWord "кафедра") data)) := by
  induction data with
  | nil => intro d f; cases d <;> rfl
  | cons row rest ih =>
    intro d f
    rw [fdfFold]
    have h1 := ih (fdfRowFold row rest.head? 0 row (d, f)).1
      (fdfRowFold row rest.head? 0 row (d, f)).2
    rw [Prod.mk.eta] at h1
    rw [h1, fdf_dept_row, collectCells, firstSome_append]
    cases d <;> rfl

theorem fdf_fac_row (row : List String) (next : Option (List String)) :
    ∀ (cs : List String) (c : Nat) (d f : Option String),
      (∀ cell ∈ cs, ¬(strContains (pyLower cell) "кафедра" = true ∧
        strContains (pyLower cell) "факультет" = true)) →
      (fdfRowFold row next c cs (d, f)).2 =
        (f <|> firstSome (collectRow (adjIfWord "факультет") row next c cs)) := by
  intro cs
  induction cs with
  | nil => intro c d f _; cases f <;> rfl
  | cons cell t ih =>
    intro c d f hnb
    rw [fdfRowFold]
    have h1 := ih (c + 1) (fdfStep row next c cell (d, f)).1
      (fdfStep row next c cell (d, f)).2
      (fun x hx => hnb x (List.mem_cons_of_mem _ hx))
    rw [Prod.mk.eta] at h1
    rw [h1, collectRow]
    by_cases hf : strContains (pyLower cell) "факультет" = true
    · have hk : ¬ strContains (pyLower cell) "кафедра" = true := by
        intro hk
        exact hnb cell (List.mem_cons_self _ _) ⟨hk, hf⟩
      simp only [Bool.not_eq_true] at hk
      cases f with
      | none =>
        have hs : (fdfStep row next c cell (d, none)).2 =
            find_adjacent_value row next c := by
          simp [fdfStep, hk, hf]
        rw [hs]
        simp only [adjIfWord, hf, if_true, List.singleton_append, firstSome,
          Option.none_orElse]
      | some fv =>
        have hs : (fdfStep row next c cell (d, some fv)).2 = some fv := by
          simp [fdfStep, hk, hf]
        rw [hs]
        simp only [adjIfWord, hf, if_true, List.singleton_append, firstSome,
          Option.some_orElse]
    · rw [fdfStep_snd_nofak row next c cell d f hf]
      simp only [Bool.not_eq_true] at hf
      simp only [adjIfWord, hf, Bool.false_eq_true, if_false, List.nil_append]

theorem fdf_fac (data : List (List String)) :
    ∀ (d f : Option String),
      (∀ row ∈ data, ∀ cell ∈ row,
        ¬(strContains (pyLower cell) "кафедра" = true ∧
          strContains (pyLower cell) "факультет" = true)) →
      (fdfFold (d, f) data).2 =
        (f <|> firstSome (collectCells (adjIfWord "факультет") data)) := by
  induction data with
  | nil => intro d f _; cases f <;> rfl
  | cons row rest ih =>
    intro d f hnb
    rw [fdfFold]
    have h1 := ih (fdfRowFold row rest.head? 0 row (d, f)).1
      (fdfRowFold row rest.head? 0 row (d, f)).2
      (fun r hr => hnb r (List.mem_cons_of_mem _ hr))
    rw [Prod.mk.eta] at h1
    rw [h1, fdf_fac_row row rest.head? row 0 d f
      (hnb row (List.mem_cons_self _ _)), collectCells, firstSome_append]
    cases f <;> rfl

/-- C8 (counterexample): a кафедра-cell whose adjacency lookup yields nothing
does *not* freeze `department` at null — a later кафедра-cell is consulted
and wins, contradicting "subsequent matches ignored even if department still
null". -/
theorem C8_counterexample :
    find_department_and_faculty [["кафедра"], [""], ["кафедра", "ИВТ"]] =
      (some "ИВТ", none) ∧
    strContains (pyLower "кафедра") "кафедра" = true ∧
    find_adjacent_value ["кафедра"] (some [""]) 0 = none := by
  exact ⟨rfl, rfl, rfl⟩

/-- C8 (amended): `department` is the adjacency value of the first
кафедра-cell (row-major) whose adjacency lookup yields a value — кафедра
cells are consulted while department is still null, and ignored once it is
set; `faculty` behaves analogously for факультет, independently provided no
single cell contains both keywords (in such a cell the кафедра branch takes
precedence while department is null). -/
theorem C8_department_first_nonnull (data : List (List String))
    (hnb : ∀ row ∈ data, ∀ cell ∈ row,
      ¬(strContains (pyLower cell) "кафедра" = true ∧
        strContains (pyLower cell) "факультет" = true)) :
    (find_department_and_faculty data).1 =
      firstSome (collectWordAdj "кафедра" data) ∧
    (find_department_and_faculty data).2 =
      firstSome (collectWordAdj "факультет" data) := by
  constructor
  · rw [find_department_and_faculty, fdf_dept, collectWordAdj]
    rfl
  · rw [find_department_and_faculty, fdf_fac data none none hnb, collectWordAdj]
    rfl

/-- C8 (witness): the amended theorem applied to a grid with one
кафедра-cell and one факультет-cell. -/
theorem C8_department_first_nonnull_witness :
    (∀ row ∈ [["кафедра информатики", "ИВТ"], ["факультет", "ФКТ"]],
      ∀ cell ∈ row,
      ¬(strContains (pyLower cell) "кафедра" = true ∧
        strContains (pyLower cell) "факультет" = true)) ∧
    ((find_department_and_faculty
        [["кафедра информатики", "ИВТ"], ["факультет", "ФКТ"]]).1 =
      firstSome (collectWordAdj "кафедра"
        [["кафедра информатики", "ИВТ"], ["факультет", "ФКТ"]]) ∧
    (find_department_and_faculty
        [["кафедра информатики", "ИВТ"], ["факультет", "ФКТ"]]).2 =
      firstSome (collectWordAdj "факультет"
        [["кафедра информатики", "ИВТ"], ["факультет", "ФКТ"]])) := by
  have hnb : ∀ row ∈ [["кафедра информатики", "ИВТ"], ["факультет", "ФКТ"]],
      ∀ cell ∈ row,
      ¬(strContains (pyLower cell) "кафедра" = true ∧
        strContains (pyLower cell) "факультет" = true) := by decide
  exact ⟨hnb, C8_department_first_nonnull _ hnb⟩

/-! ## C3: semester tokens and their ordering -/

/-- The spec's description of the final formatting: numeric tokens sorted
ascending, then alphabetic tokens sorted ascending, joined with ", ". -/
def spec_format_semesters (tokens : List String) : String :=
  String.intercalate ", "
    (sortLe pyStrLe (tokens.filter (fun t => pyStrIsDigit t)) ++
      sortLe pyStrLe (tokens.filter (fun t => !pyStrIsDigit t)))

/-- The spec's description of the whole semester derivation from the three
semester cells (columns 3, 4, 5): tokens of each non-blank cell accumulated
into one deduplicated set, then formatted numeric-before-alphabetic. -/
def spec_semesters (c3 c4 c5 : Option Cell) : String :=
  let toks := [c3, c4, c5].foldl (fun sems oc =>
    match oc with
    | some c => if !c.isna then setUnion sems (parse_semester_value c) else sems
    | none => sems) []
  spec_format_semesters toks

theorem sem_le_dd {x a : String} (hx : pyStrIsDigit x = true)
    (ha : pyStrIsDigit a = true) : semKeyLe x a = pyStrLe x a := by
  simp [semKeyLe, hx, ha]

theorem sem_le_dn {x b : String} (hx : pyStrIsDigit x = true)
    (hb : pyStrIsDigit b = false) : semKeyLe x b = true := by
  simp [semKeyLe, hx, hb]

theorem sem_le_nd {x a : String} (hx : pyStrIsDigit x = false)
    (ha : pyStrIsDigit a = true) : semKeyLe x a = false := by
  simp [semKeyLe, hx, ha]

theorem sem_le_nn {x b : String} (hx : pyStrIsDigit x = false)
    (hb : pyStrIsDigit b = false) : semKeyLe x b = pyStrLe x b := by
  simp [semKeyLe, hx, hb]

theorem mem_insertLe (le : String → String → Bool) (x y : String) :
    ∀ l, y ∈ insertLe le x l → y = x ∨ y ∈ l := by
  intro l
  induction l with
  | nil => intro h; simp [insertLe] at h; exact Or.inl h
  | cons a t ih =>
    intro h
    rw [insertLe] at h
    split at h
    · rcases List.mem_cons.mp h with h1 | h1
      · exact Or.inl h1
      · exact Or.inr h1
    · rcases List.mem_cons.mp h with h1 | h1
      · exact Or.inr (h1 ▸ List.mem_cons_self a t)
      · rcases ih h1 with h2 | h2
        · exact Or.inl h2
        · exact Or.inr (List.mem_cons_of_mem a h2)

theorem mem_sortLe (le : String → String → Bool) (y : String) :
    ∀ l, y ∈ sortLe le l → y ∈ l := by
  intro l
  induction l with
  | nil => intro h; exact absurd h (by simp [sortLe])
  | cons a t ih =>
    intro h
    rw [sortLe] at h
    rcases mem_insertLe le a y _ h with h1 | h1
    · exact h1 ▸ List.mem_cons_self a t
    · exact List.mem_cons_of_mem a (ih h1)

theorem insertLe_digit (x : String) (hx : pyStrIsDigit x = true) :
    ∀ (A B : List String),
      (∀ a ∈ A, pyStrIsDigit a = true) → (∀ b ∈ B, pyStrIsDigit b = false) →
      insertLe semKeyLe x (A ++ B) = insertLe pyStrLe x A ++ B := by
  intro A
  induction A with
  | nil =>
    intro B _ hB
    cases B with
    | nil => rfl
    | cons b t =>
      simp only [List.nil_append, insertLe,
        sem_le_dn hx (hB b (List.mem_cons_self b t)), if_true]
      rfl
  | cons a A' ih =>
    intro B hA hB
    simp only [List.cons_append, insertLe,
      sem_le_dd hx (hA a (List.mem_cons_self a A')), List.append_eq]
    split
    · rfl
    · rw [ih B (fun z hz => hA z (List.mem_cons_of_mem a hz)) hB]
      rfl

theorem insertLe_nondigit (x : String) (hx : pyStrIsDigit x = false) :
    ∀ (A B : List String),
      (∀ a ∈ A, pyStrIsDigit a = true) → (∀ b ∈ B, pyStrIsDigit b = false) →
      insertLe semKeyLe x (A ++ B) = A ++ insertLe pyStrLe x B := by
  intro A
  induction A with
  | nil =>
    intro B _ hB
    simp only [List.nil_append]
    induction B with
    | nil => rfl
    | cons b t ihB =>
      rw [insertLe, insertLe, sem_le_nn hx (hB b (List.mem_cons_self b t))]
      split
      · rfl
      · rw [ihB (fun z hz => hB z (List.mem_cons_of_mem b hz))]
  | cons a A' ih =>
    intro B hA hB
    simp only [List.cons_append, insertLe,
      sem_le_nd hx (hA a (List.mem_cons_self a A')), Bool.false_eq_true, if_false,
      List.append_eq]
    rw [ih B (fun z hz => hA z (List.mem_cons_of_mem a hz)) hB]

theorem sortLe_semKey_eq (l : List String) :
    sortLe semKeyLe l =
      sortLe pyStrLe (l.filter (fun t => pyStrIsDigit t)) ++
        sortLe pyStrLe (l.filter (fun t => !pyStrIsDigit t)) := by
  induction l with
  | nil => rfl
  | cons x t ih =>
    have hA : ∀ a ∈ sortLe pyStrLe (t.filter (fun s => pyStrIsDigit s)),
        pyStrIsDigit a = true := by
      intro a ha
      exact (List.mem_filter.mp (mem_sortLe _ _ _ ha)).2
    have hB : ∀ b ∈ sortLe pyStrLe (t.filter (fun s => !pyStrIsDigit s)),
        pyStrIsDigit b = false := by
      intro b hb
      have := (List.mem_filter.mp (mem_sortLe _ _ _ hb)).2
      simpa using this
    rw [sortLe, ih]
    cases hx : pyStrIsDigit x with
    | true =>
      rw [insertLe_digit x hx _ _ hA hB]
      have hf1 : (x :: t).filter (fun s => pyStrIsDigit s) =
          x :: t.filter (fun s => pyStrIsDigit s) := by
        simp [List.filter_cons, hx]
      have hf2 : (x :: t).filter (fun s => !pyStrIsDigit s) =
          t.filter (fun s => !pyStrIsDigit s) := by
        simp [List.filter_cons, hx]
      rw [hf1, hf2, sortLe]
    | false =>
      rw [insertLe_nondigit x hx _ _ hA hB]
      have hf1 : (x :: t).filter (fun s => pyStrIsDigit s) =
          t.filter (fun s => pyStrIsDigit s) := by
        simp [List.filter_cons, hx]
      have hf2 : (x :: t).filter (fun s => !pyStrIsDigit s) =
          x :: t.filter (fun s => !pyStrIsDigit s) := by
        simp [List.filter_cons, hx]
      rw [hf1, hf2, sortLe]

theorem format_semesters_eq_spec (l : List String) :
    format_semesters l = spec_format_semesters l := by
  unfold format_semesters spec_format_semesters
  rw [sortLe_semKey_eq]

/-- C3: the derived `semesters` string is exactly the claim's description —
tokens of the three semester cells (single digits/letters kept, multi-digit
numerals exploded), deduplicated across the columns, numeric tokens sorted
ascending before alphabetic tokens, joined with ", "; in particular the cells
"3", "12", "а" give "1, 2, 3, а". -/
theorem C3_semester_formatting :
    (∀ row : List Cell, extract_semesters_from_row row =
      spec_semesters (row.get? 3) (row.get? 4) (row.get? 5)) ∧
    extract_semesters_from_row
      [Cell.str "+", Cell.str "Б1.О.01", Cell.str "Математика",
       Cell.str "3", Cell.str "12", Cell.str "а"] = "1, 2, 3, а" := by
  constructor
  · intro row
    unfold extract_semesters_from_row spec_semesters
    simp only [List.foldl]
    exact format_semesters_eq_spec _
  · rfl

end ErgoParser

